import Mathlib

/-! Verification of the ringboard clipboard-history core: a shallow embedding
of the entry store, the reader pipeline, the search engine and the server
reactor, with theorems checking the specification's statements against the
code. Definitions are translated from the Rust sources; pieces of the
`ringboard_core` support crate that are not part of this tree are modelled
from the specification and marked as such. -/

namespace Ringboard

/-- Modelled from the spec: the composite entry id, ring kind shifted left by
32 bits, or-ed with the slot index. `composite_id` lives in the missing
`ringboard_core::protocol` module. -/
def composite_id (kind : Nat) (id : Nat) : Nat := (kind <<< 32) ||| id

/-- Modelled from the spec: `bucket_to_length c` is the slot length of size
class `c`. Size classes are powers of two, the smallest fitting 4-byte
entries and doubling per class; the function lives in the missing
`ringboard_core` crate. -/
def bucket_to_length (c : Nat) : Nat := 4 * 2 ^ c

/-- Modelled from the spec: `size_to_bucket n` returns the smallest class
whose length is at least `n`; the function lives in the missing
`ringboard_core` crate. Since `bucket_to_length c = 2 ^ (c + 2)`, the
smallest such class is the ceiling log base 2 of `n`, less 2 (clamped at 0). -/
def size_to_bucket (n : Nat) : Nat := Nat.clog 2 n - 2

/-! ## Search engine: the direct-store walker (src/client-sdk/src/search.rs) -/

/-- Modelled from the spec: the fixed set `TEXT_MIMES` of MIME types
recognised as textual, from the missing `ringboard_core` crate. The spec does
not enumerate its members; we take the empty string (spec: empty means an
unset MIME) together with the canonical textual MIME type. -/
def TEXT_MIMES : List String := ["", "text/plain"]

/-- The direct walker's MIME gate, from `search_impl` in search.rs: the file
is searched exactly when this returns true. The source skips the file when
`!mime_type.is_empty() || !TEXT_MIMES.contains(&&*mime_type)` holds, so the
gate passes only a file whose MIME is empty, and only when the empty string
is itself a member of `TEXT_MIMES`. -/
def mime_gate_searches (text_mimes : List String) (mime : String) : Bool :=
  !(!mime.isEmpty || !text_mimes.contains mime)

/-- Rust's `u32::from_str` as used by the direct walker on the two filename
halves: an optional single leading plus sign followed by one or more decimal
digits, whose value must fit in 32 bits. -/
def u32_from_str (s : List Char) : Option Nat :=
  let digits := if s.headD 'x' = '+' then s.tail else s
  if digits ≠ [] ∧ digits.all Char.isDigit then
    let v := digits.foldl (fun a c => a * 10 + (c.toNat - 48)) 0
    if v < 2 ^ 32 then some v else none
  else none

/-- `slice::split_once` on the filename bytes: split at the first occurrence
of the separator, returning the parts before and after it. -/
def split_once (sep : Char) : List Char → Option (List Char × List Char)
  | [] => none
  | c :: rest =>
    if c = sep then some ([], rest)
    else (split_once sep rest).map (fun p => (c :: p.1, p.2))

/-- The direct walker's filename-to-id parse from `search_impl`: split at the
first underscore, parse both halves with `u32::from_str`, and combine them as
the composite id `ring <<< 32 ||| slot`. -/
def parse_direct_file_id (name : List Char) : Option Nat :=
  (split_once '_' name).bind fun p =>
    (u32_from_str p.1).bind fun r =>
      (u32_from_str p.2).map fun e => (r <<< 32) ||| e

/-- A file visited by the direct-store walker: its name, the value of its
`user.mime_type` extended attribute (empty when absent), and its bytes. -/
structure DirectFile where
  name : String
  mime : String
  contents : List Nat
deriving DecidableEq, Repr

/-- Outcome of the walker's per-file processing: skipped, a reported query
hit, or the `NotARingboard` error naming the file. -/
inductive WalkOutcome
  | skip
  | hit (id : Nat) (first last : Nat)
  | notARingboard (file : String)
deriving DecidableEq, Repr

/-- Per-file processing of the direct-store walker in `search_impl`
(search.rs): dot entries are passed over, then the MIME gate runs, then the
query; only on a query hit is the filename parsed back into a composite id,
any parse failure becoming `NotARingboard`. The query is abstracted as its
`find` capability returning an optional match span. -/
def process_direct_file (text_mimes : List String)
    (find : List Nat → Option (Nat × Nat)) (f : DirectFile) : WalkOutcome :=
  if f.name = "." ∨ f.name = ".." then .skip
  else if !(mime_gate_searches text_mimes f.mime) then .skip
  else
    match find f.contents with
    | none => .skip
    | some (s, e) =>
      match parse_direct_file_id f.name.toList with
      | some id => .hit id s e
      | none => .notARingboard f.name

/-! ## Ring model and the reader iterator (src/client-sdk/src/ring_reader.rs) -/

/-- The two rings, from `ringboard_core::protocol::RingKind` as used by the
reader. -/
inductive RingKind
  | main
  | favorites
deriving DecidableEq, Repr

/-- A bucketed slot's payload location, from the missing
`ringboard_core::ring::BucketEntry`: the stored size in bytes and the bucket
slot index. The size class is recomputed from the size by the reader. -/
structure BucketEntry where
  size : Nat
  index : Nat
deriving DecidableEq, Repr

/-- Modelled from the spec: one slot record of a ring (the missing
`ringboard_core::ring::Entry` enum): a zero sentinel, a bucketed reference,
or a direct-file marker. -/
inductive Slot
  | uninit
  | bucketed (entry : BucketEntry)
  | file
deriving DecidableEq, Repr

/-- Modelled from the spec: the memory-mapped ring file, reduced to its slot
array and the write head. -/
structure Ring where
  slots : List Slot
  write_head : Nat
deriving Repr

/-- Modelled from the spec: the ring's capacity, fixed at open. -/
def Ring.len (r : Ring) : Nat := r.slots.length

/-- Modelled from the spec: `get slot` returns the slot record, none when the
slot is out of range (the source's Option). -/
def Ring.get (r : Ring) (i : Nat) : Option Slot := r.slots.get? i

/-- Modelled from the spec: the successor of a head position, wrapping modulo
capacity. -/
def Ring.next_head (r : Ring) (i : Nat) : Nat := (i + 1) % r.len

/-- Modelled from the spec: `next_entry` wraps modulo capacity. -/
def Ring.next_entry (r : Ring) (i : Nat) : Nat := (i + 1) % r.len

/-- Modelled from the spec: `prev_entry` wraps modulo capacity. -/
def Ring.prev_entry (r : Ring) (i : Nat) : Nat := if i = 0 then r.len - 1 else i - 1

/-- The reader's entry kind, `Kind` in ring_reader.rs. -/
inductive Kind
  | bucket (e : BucketEntry)
  | file
deriving DecidableEq, Repr

/-- The reader's `Entry` struct in ring_reader.rs: slot id, owning ring and
resolved kind. -/
structure Entry where
  id : Nat
  ring : RingKind
  kind : Kind
deriving DecidableEq, Repr

/-- `Entry::from` in ring_reader.rs (renamed, `from` being reserved): none
for an out-of-range or uninitialised slot, otherwise the entry. -/
def Entry.fromRing (ring : Ring) (kind : RingKind) (id : Nat) : Option Entry :=
  match ring.get id with
  | none => none
  | some .uninit => none
  | some (.bucketed e) => some ⟨id, kind, .bucket e⟩
  | some .file => some ⟨id, kind, .file⟩

/-- The `RingIter` state in ring_reader.rs. -/
structure RingIter where
  kind : RingKind
  write_head : Nat
  front : Nat
  back : Nat
  done : Bool
deriving DecidableEq, Repr

/-- Which of the two advance closures of `RingIter::next` and
`RingIter::next_back` is in play. -/
inductive Direction
  | forward
  | backward
deriving DecidableEq, Repr

/-- The advance closure passed to `next_dir`: yield the current id and step
`front` via `next_entry` (forward) or `back` via `prev_entry` (backward). -/
def RingIter.advance (ring : Ring) (dir : Direction) (it : RingIter) : Nat × RingIter :=
  match dir with
  | .forward => (it.front, { it with front := ring.next_entry it.front })
  | .backward => (it.back, { it with back := ring.prev_entry it.back })

/-- `RingIter::next_dir` in ring_reader.rs: loop until done, updating the
done flag from the three-way termination condition, advancing, and yielding
the advanced id's entry when it is concrete. The loop is given explicit fuel;
the source loop terminates because `front` cycles through the ring. -/
def RingIter.next_dir (ring : Ring) (dir : Direction) : Nat → RingIter → Option Entry × RingIter
  | 0, it => (none, it)
  | fuel + 1, it =>
    if it.done then (none, it)
    else
      let cond := decide (it.front = it.back ∨ ring.next_head it.front = it.write_head ∨
        it.back = it.write_head)
      let it1 : RingIter := { it with done := cond }
      let p := RingIter.advance ring dir it1
      match Entry.fromRing ring p.2.kind p.1 with
      | some e => (some e, p.2)
      | none => RingIter.next_dir ring dir fuel p.2

/-! ## Entry resolver (src/client-sdk/src/ring_reader.rs) -/

/-- The reader's mapped state, `EntryReader` in ring_reader.rs: the eleven
bucket mappings, each reduced to its byte contents. The direct-directory file
descriptor is abstracted by the `direct_read` parameter of `Entry.to_slice`. -/
structure EntryReader where
  buckets : List (List Nat)
deriving Repr

/-- The `BucketTooShort` staleness signal of ring_reader.rs. -/
structure BucketTooShort where
  bucket : Nat
  needed_len : Nat
deriving DecidableEq, Repr

/-- `bucket_entry_to_slice` in ring_reader.rs: locate the entry at
`size_class * index` in its bucket mapping; when the mapping is too short,
signal the class and the needed length `size_class * (index + 1)`. -/
def bucket_entry_to_slice (reader : EntryReader) (entry : BucketEntry) :
    Except BucketTooShort (List Nat) :=
  let index := entry.index
  let size := entry.size
  let bucket := size_to_bucket entry.size
  let size_class := bucket_to_length bucket
  let start := size_class * index
  let mem := reader.buckets.getD bucket []
  if start + size > mem.length then
    .error ⟨bucket, size_class * (index + 1)⟩
  else
    .ok ((mem.drop start).take size)

/-- `Entry::grow_bucket_if_needed` in ring_reader.rs: on `BucketTooShort`,
remap the bucket to the maximum of the needed length and twice the current
mapping length. The bytes visible through the fresh mapping are supplied by
`remap_data`, indexed by the requested length. -/
def Entry.grow_bucket_if_needed (remap_data : Nat → List Nat) (e : Entry)
    (reader : EntryReader) : EntryReader :=
  match e.kind with
  | .file => reader
  | .bucket entry =>
    match bucket_entry_to_slice reader entry with
    | .ok _ => reader
    | .error err =>
      let len := (reader.buckets.getD err.bucket []).length
      { reader with buckets :=
          reader.buckets.set err.bucket (remap_data (Nat.max err.needed_len (len * 2))) }

/-- `Entry::to_slice` in ring_reader.rs, with the direct store abstracted by
`direct_read`: none models the source's `Ok(None)` when the bucket mapping is
still too short. -/
def Entry.to_slice (direct_read : RingKind → Nat → List Nat) (e : Entry)
    (reader : EntryReader) : Option (List Nat) :=
  match e.kind with
  | .bucket entry =>
    match bucket_entry_to_slice reader entry with
    | .ok bytes => some bytes
    | .error _ => none
  | .file => some (direct_read e.ring e.id)

/-- `Entry::to_slice_growable` in ring_reader.rs: grow the bucket if needed,
then resolve; the source unwraps the result, so a `none` here is the
unreachable failure branch after the remap. -/
def Entry.to_slice_growable (remap_data : Nat → List Nat)
    (direct_read : RingKind → Nat → List Nat) (e : Entry) (reader : EntryReader) :
    Option (List Nat) :=
  Entry.to_slice direct_read e (Entry.grow_bucket_if_needed remap_data e reader)

/-! ## Server: errors, send buffers and request handlers
(src/server/src/requests.rs) -/

/-- The server's `CliError`, reduced to the variants the reactor produces:
internal invariant violations with their context string, and IO failures. -/
inductive CliError
  | internal (context : String)
  | io (context : String)
deriving DecidableEq, Repr

/-- The context string of the `From PushError for CliError` conversion in
reactor.rs: a failed submission-queue push becomes this internal error. -/
def pushErrorContext : String := "Mismanaged io_uring SQEs."

/-- Modelled from the spec: the send-buffer pool of the missing
send_msg_bufs module, reduced to its free-token list; tokens are 8-bit. -/
structure SendMsgBufs where
  free_tokens : List Nat
deriving DecidableEq, Repr

/-- A reply produced through the pool: its token and the written bytes. -/
structure Reply where
  token : Nat
  bytes : List Nat
deriving DecidableEq, Repr

/-- Modelled from the spec: allocation takes a free token and records the
written reply bytes; it fails when no token is free. -/
def SendMsgBufs.alloc (bufs : SendMsgBufs) (bytes : List Nat) :
    Option (Reply × SendMsgBufs) :=
  match bufs.free_tokens with
  | [] => none
  | t :: rest => some (⟨t, bytes⟩, ⟨rest⟩)

/-- Modelled from the spec: freeing returns the token to the pool. -/
def SendMsgBufs.free (bufs : SendMsgBufs) (token : Nat) : SendMsgBufs :=
  ⟨token :: bufs.free_tokens⟩

/-- Modelled from the spec: trim releases unused buffer memory on pressure;
the token bookkeeping is unchanged. -/
def SendMsgBufs.trim (bufs : SendMsgBufs) : SendMsgBufs := bufs

/-- Modelled from the spec: the pool at construction, one buffer per 8-bit
token. -/
def SendMsgBufs.new : SendMsgBufs := ⟨List.range 256⟩

/-- Modelled from the spec: the 8-bit protocol version of the missing
`ringboard_core::protocol` module; the spec's concrete scenarios put the
server at version 1. -/
def protocol_VERSION : Nat := 1

/-- `connect` in requests.rs: read the client's version byte, compare it
with the server's, and allocate a one-byte reply holding the server's
version; a failed allocation is the source's internal error. -/
def connect (payload : List Nat) (send_bufs : SendMsgBufs) :
    Except CliError ((Bool × Reply) × SendMsgBufs) :=
  let version := payload.getD 0 0
  match send_bufs.alloc [protocol_VERSION] with
  | none => .error (.internal "Did not allocate enough send buffers.")
  | some (reply, bufs) => .ok ((decide (version = protocol_VERSION), reply), bufs)

/-- The request tags of requests.rs; `Add` is the only one defined. -/
inductive Request
  | add
deriving DecidableEq, Repr

/-- `handle` in requests.rs: for `Add`, the source drains the SCM_RIGHTS
fds from the control data and reads each one's contents into a string, but
only debug-prints them: no store is written, no ring slot appended, and no
reply returned. The fds are abstracted as their readable contents. -/
def handle (request : Request) (control_fds : List (List Nat))
    (send_bufs : SendMsgBufs) : Except CliError (Option Reply × SendMsgBufs) :=
  match request with
  | .add => .ok (none, send_bufs)

/-! ## Server: the reactor (src/server/src/reactor.rs) -/

/-- `MAX_NUM_CLIENTS` in reactor.rs: 1 shifted left by 5. -/
def MAX_NUM_CLIENTS : Nat := 1 <<< 5

/-- Rust's bitwise-not of `1u32 << id`, written as xor with the all-ones
32-bit word; the source only forms it for ids below 32. -/
def mask_not (id : Nat) : Nat := (2 ^ 32 - 1) ^^^ (2 ^ id)

/-- The reactor's per-client bitsets, `Clients` in reactor.rs: u32 words
indexed by fixed-file slot. -/
structure Clients where
  connections : Nat
  pending_closes : Nat
  pending_recv : Nat
deriving DecidableEq, Repr

/-- `Clients::is_connected`: the connections bit is set. -/
def Clients.is_connected (c : Clients) (id : Nat) : Bool :=
  decide (c.connections &&& (1 <<< id) ≠ 0)

/-- `Clients::is_closing`: the pending-close bit is set. -/
def Clients.is_closing (c : Clients) (id : Nat) : Bool :=
  decide (c.pending_closes &&& (1 <<< id) ≠ 0)

/-- `Clients::set_connected`: set the connections bit, clear the
pending-close and pending-recv bits. -/
def Clients.set_connected (c : Clients) (id : Nat) : Clients :=
  { connections := c.connections ||| (1 <<< id),
    pending_closes := c.pending_closes &&& mask_not id,
    pending_recv := c.pending_recv &&& mask_not id }

/-- `Clients::set_disconnected`: clear the connections bit, set the
pending-close bit. -/
def Clients.set_disconnected (c : Clients) (id : Nat) : Clients :=
  { connections := c.connections &&& mask_not id,
    pending_closes := c.pending_closes ||| (1 <<< id),
    pending_recv := c.pending_recv }

/-- `Clients::set_closed`: clear all three bits. -/
def Clients.set_closed (c : Clients) (id : Nat) : Clients :=
  { connections := c.connections &&& mask_not id,
    pending_closes := c.pending_closes &&& mask_not id,
    pending_recv := c.pending_recv &&& mask_not id }

/-- `Clients::set_pending_recv`: set the pending-recv bit. -/
def Clients.set_pending_recv (c : Clients) (id : Nat) : Clients :=
  { c with pending_recv := c.pending_recv ||| (1 <<< id) }

/-- `Clients::take_pending_recv`: report and clear the pending-recv bit. -/
def Clients.take_pending_recv (c : Clients) (id : Nat) : Bool × Clients :=
  (decide (c.pending_recv &&& (1 <<< id) ≠ 0),
    { c with pending_recv := c.pending_recv &&& mask_not id })

/-- A submission-queue entry as the reactor forms them. -/
inductive Sqe
  | accept
  | recvmsg (fd : Nat)
  | sendmsg (fd : Nat) (token : Nat) (buf_index : Nat) (linked : Bool)
  | close (fd : Nat)
  | poll_low_mem
deriving DecidableEq, Repr

/-- An accept completion's result: a fixed-file client slot, the NFILE
exhaustion error, or any other error (fatal in the source). -/
inductive AcceptRes
  | ok (client : Nat)
  | err_nfile
  | err_other
deriving DecidableEq, Repr

/-- A recv completion's result. A successful receive carries the parsed
message: payload bytes, SCM_RIGHTS fds (as their contents) and the
truncation flag; the source's buffer-parse failure is elided. -/
inductive RecvRes
  | ok (payload : List Nat) (control_fds : List (List Nat)) (truncated : Bool)
  | err_msgsize
  | err_nobufs
  | err_connreset
  | err_other
deriving DecidableEq, Repr

/-- A send completion's result. -/
inductive SendRes
  | ok
  | err_broken_pipe
  | err_connreset
  | err_other
deriving DecidableEq, Repr

/-- A completion-queue entry as the reactor's dispatch distinguishes them:
the request type from the user-data low bits, the client fd from its top
bits, the buffer index and token where packed, and the more-completions
flag. -/
inductive Completion
  | accept (res : AcceptRes) (more : Bool)
  | recv (fd : Nat) (res : RecvRes) (buf_index : Nat) (more : Bool)
  | sendmsg (fd : Nat) (token : Nat) (buf_index : Nat) (res : SendRes)
  | close (fd : Nat) (success : Bool)
  | read_signals (pollin : Bool)
  | low_mem (pollerr : Bool) (pollpri : Bool) (more : Bool)
deriving DecidableEq, Repr

/-- The reactor's loop state in `run` (reactor.rs): the client bitsets, the
deferred-accept flag, the per-client buffer-ring registrations, and the send
pool. -/
structure Reactor where
  clients : Clients
  pending_accept : Bool
  client_buffers : List Bool
  send_bufs : SendMsgBufs
deriving DecidableEq, Repr

/-- The loop state at entry of `run`: no clients, no deferred accept, no
buffer rings, a fresh send pool. -/
def init_reactor : Reactor :=
  ⟨⟨0, 0, 0⟩, false, List.replicate 32 false, SendMsgBufs.new⟩

/-- One completion's handling in `run` (reactor.rs), with the state updates
it performs, the submission entries it pushes (in order) and whether it
breaks the outer loop. Connected-client dispatch is abstracted by
`handle_req` (the reactor calls a five-argument request handler on payload,
control data and the send pool). Error returns discard the transaction as
the source's early returns do. -/
def handle_completion
    (handle_req : List Nat → List (List Nat) → SendMsgBufs →
      Except CliError (Option Reply × SendMsgBufs))
    (s : Reactor) (c : Completion) :
    Except CliError (Reactor × List Sqe × Bool) :=
  match c with
  | .accept res more =>
    match res with
    | .err_nfile => .ok ({ s with pending_accept := true }, [], false)
    | .err_other => .error (.io "Failed to accept socket connection.")
    | .ok client =>
      let s1 := { s with client_buffers := s.client_buffers.set client true }
      .ok (s1, (if more then [] else [Sqe.accept]) ++ [Sqe.recvmsg client], false)
  | .recv fd res buf_index more =>
    match res with
    | .err_msgsize => .ok ({ s with clients := s.clients.set_pending_recv fd }, [], false)
    | .err_nobufs => .ok ({ s with clients := s.clients.set_pending_recv fd }, [], false)
    | .err_connreset =>
      .ok ({ s with clients := s.clients.set_disconnected fd }, [Sqe.close fd], false)
    | .err_other => .error (.io "Failed to recv from client.")
    | .ok payload control truncated =>
      if truncated then .error (.internal "Received data was truncated.")
      else if payload.isEmpty then
        if s.clients.is_closing fd then .ok (s, [], false)
        else .ok ({ s with clients := s.clients.set_disconnected fd }, [Sqe.close fd], false)
      else if s.clients.is_closing fd then .ok (s, [], false)
      else
        let dispatch : Except CliError (Clients × SendMsgBufs × Option Reply) :=
          if s.clients.is_connected fd then
            match handle_req payload control s.send_bufs with
            | .error e => .error e
            | .ok (response, bufs) => .ok (s.clients, bufs, response)
          else
            match connect payload s.send_bufs with
            | .error e => .error e
            | .ok ((valid, reply), bufs) =>
              if valid then .ok (s.clients.set_connected fd, bufs, some reply)
              else .ok (s.clients.set_disconnected fd, bufs, some reply)
        match dispatch with
        | .error e => .error e
        | .ok (clients1, bufs1, response) =>
          let send_pushes := match response with
            | some reply =>
              [Sqe.sendmsg fd reply.token buf_index (!(clients1.is_connected fd))]
            | none => []
          let tail := if clients1.is_connected fd then
              (if more then [] else [Sqe.recvmsg fd])
            else [Sqe.close fd]
          .ok ({ s with clients := clients1, send_bufs := bufs1 },
            send_pushes ++ tail, false)
  | .sendmsg fd token buf_index res =>
    let bufs := s.send_bufs.free token
    match res with
    | .err_broken_pipe =>
      if s.clients.is_closing fd then .ok ({ s with send_bufs := bufs }, [], false)
      else .ok ({ s with send_bufs := bufs, clients := s.clients.set_disconnected fd },
        [Sqe.close fd], false)
    | .err_connreset =>
      if s.clients.is_closing fd then .ok ({ s with send_bufs := bufs }, [], false)
      else .ok ({ s with send_bufs := bufs, clients := s.clients.set_disconnected fd },
        [Sqe.close fd], false)
    | .err_other => .error (.io "Failed to send response to client.")
    | .ok =>
      if s.clients.is_closing fd = false ∧ s.clients.is_connected fd = true then
        let t := s.clients.take_pending_recv fd
        .ok ({ s with send_bufs := bufs, clients := t.2 },
          if t.1 then [Sqe.recvmsg fd] else [], false)
      else .ok ({ s with send_bufs := bufs }, [], false)
  | .close fd success =>
    if success = false then .error (.io "Failed to close client.")
    else
      let s1 := { s with
        clients := s.clients.set_closed fd
        client_buffers := s.client_buffers.set fd false }
      if s1.pending_accept = true ∧ s1.clients.pending_closes = 0 then
        .ok ({ s1 with pending_accept := false }, [Sqe.accept], false)
      else .ok (s1, [], false)
  | .read_signals pollin =>
    if pollin then .ok (s, [], true)
    else .error (.internal "Unknown signal poll event received.")
  | .low_mem pollerr pollpri more =>
    let pushes := if more then [] else [Sqe.poll_low_mem]
    if pollerr then .error (.internal "Error polling for low memory events")
    else if pollpri then .ok ({ s with send_bufs := s.send_bufs.trim }, pushes, false)
    else .error (.internal "Unknown low memory poll event received.")

/-- Pushing a batch of submission entries, each push requiring a free slot;
an overflow is the `From PushError` internal error of reactor.rs. -/
def push_all (cap : Nat) (sq : List Sqe) : List Sqe → Except CliError (List Sqe)
  | [] => .ok sq
  | e :: rest =>
    if sq.length < cap then push_all cap (sq ++ [e]) rest
    else .error (.internal pushErrorContext)

/-- The completion-processing loop of `run` (reactor.rs): take a completion
only while at least two submission slots are free, handle it, push its
follow-ups; stop on shutdown. The second component logs every submission
entry the loop pushed. -/
def reactor_loop
    (handle_req : List Nat → List (List Nat) → SendMsgBufs →
      Except CliError (Option Reply × SendMsgBufs))
    (cap : Nat) (s : Reactor) (sq : List Sqe) :
    List Completion → Except CliError (Reactor × List Sqe) × List Sqe
  | [] => (.ok (s, sq), [])
  | c :: rest =>
    if cap - sq.length < 2 then (.ok (s, sq), [])
    else
      match handle_completion handle_req s c with
      | .error e => (.error e, [])
      | .ok (s1, pushes, shutdown) =>
        match push_all cap sq pushes with
        | .error e => (.error e, pushes)
        | .ok sq1 =>
          if shutdown then (.ok (s1, sq1), pushes)
          else
            let r := reactor_loop handle_req cap s1 sq1 rest
            (r.1, pushes ++ r.2)

/-- A completion is well-formed when the client fds it carries fit the
32-entry fixed-file table: the source recovers them from 5-bit user-data
fields and debug-asserts accepted slots below `MAX_NUM_CLIENTS`. -/
def Completion.wf : Completion → Prop
  | .accept (.ok client) _ => client < 32
  | .recv fd _ _ _ => fd < 32
  | .sendmsg fd _ _ _ => fd < 32
  | .close fd _ => fd < 32
  | _ => True

/-- The client words are 32-bit. -/
def Clients.wfBits (cl : Clients) : Prop :=
  cl.connections < 2 ^ 32 ∧ cl.pending_closes < 2 ^ 32 ∧ cl.pending_recv < 2 ^ 32

/-- The reactor states reachable from loop entry by handling well-formed
completions. -/
inductive Reachable (handle_req : List Nat → List (List Nat) → SendMsgBufs →
    Except CliError (Option Reply × SendMsgBufs)) : Reactor → Prop
  | init : Reachable handle_req init_reactor
  | step (s : Reactor) (c : Completion) (r : Reactor × List Sqe × Bool) :
      Reachable handle_req s → Completion.wf c →
      handle_completion handle_req s c = .ok r → Reachable handle_req r.1

/-- The completion assigns the given fixed-file slot to a new client. -/
def Completion.assigns_fd (fd : Nat) : Completion → Prop
  | .accept (.ok client) _ => client = fd
  | _ => False

/-- The completion is a receive completion for the given client. -/
def Completion.is_recv_for (fd : Nat) : Completion → Prop
  | .recv fd1 _ _ _ => fd1 = fd
  | _ => False

/-- The completion is a successful send completion for the given client. -/
def Completion.is_ok_send_for (fd : Nat) : Completion → Prop
  | .sendmsg fd1 _ _ .ok => fd1 = fd
  | _ => False

/-- The spec's filename convention, written from the spec's words for the
refinement comparison: the name must match the anchored pattern digits,
underscore, digits, with both numbers fitting in 32 bits. Splitting at the
first underscore is equivalent to the regex because a second underscore makes
the right half non-numeric. -/
def spec_filename_form (name : List Char) : Bool :=
  match split_once '_' name with
  | none => false
  | some p =>
    !p.1.isEmpty && p.1.all Char.isDigit &&
    !p.2.isEmpty && p.2.all Char.isDigit &&
    decide (p.1.foldl (fun a c => a * 10 + (c.toNat - 48)) 0 < 2 ^ 32) &&
    decide (p.2.foldl (fun a c => a * 10 + (c.toNat - 48)) 0 < 2 ^ 32)

/-- The connected and pending-close words share no set bit. -/
def Clients.excl (cl : Clients) : Prop := cl.connections &&& cl.pending_closes = 0

/-- Sanity check that the modelled `size_to_bucket` satisfies the spec's
defining property: the chosen class is large enough for the entry. -/
theorem size_to_bucket_fits (n : Nat) : n ≤ bucket_to_length (size_to_bucket n) := by
  have h := Nat.le_pow_clog (by norm_num : 1 < 2) n
  have hc : Nat.clog 2 n ≤ size_to_bucket n + 2 := by
    unfold size_to_bucket
    omega
  calc n ≤ 2 ^ Nat.clog 2 n := h
    _ ≤ 2 ^ (size_to_bucket n + 2) := Nat.pow_le_pow_right (by norm_num) hc
    _ = bucket_to_length (size_to_bucket n) := by
        unfold bucket_to_length
        ring

theorem fromRing_some {ring : Ring} {kind : RingKind} {id : Nat} {e : Entry}
    (h : Entry.fromRing ring kind id = some e) :
    e.id = id ∧ e.ring = kind ∧ ∃ s, ring.get id = some s ∧ s ≠ Slot.uninit := by
  unfold Entry.fromRing at h
  cases hg : ring.get id with
  | none => rw [hg] at h; exact absurd h (by simp)
  | some s =>
    rw [hg] at h
    cases s with
    | uninit => simp at h
    | bucketed e0 =>
      simp only [Option.some.injEq] at h
      subst h
      exact ⟨rfl, rfl, _, rfl, by simp⟩
    | file =>
      simp only [Option.some.injEq] at h
      subst h
      exact ⟨rfl, rfl, _, rfl, by simp⟩

theorem u32_from_str_digits (s : List Char) (h1 : s ≠ []) (h2 : s.all Char.isDigit = true)
    (h3 : s.foldl (fun a c => a * 10 + (c.toNat - 48)) 0 < 2 ^ 32) :
    u32_from_str s = some (s.foldl (fun a c => a * 10 + (c.toNat - 48)) 0) := by
  have hd : s.headD 'x' ≠ '+' := by
    cases s with
    | nil => simp at h1
    | cons c rest =>
      simp only [List.headD_cons]
      intro hc
      subst hc
      simp [List.all_cons] at h2
  unfold u32_from_str
  rw [if_neg hd]
  simp [h1, h2]
  omega

/-- C3: for every ring and reader iterator state, a forward or backward step
of `next_dir` yields only entries whose slot is present and not uninitialised
(uninitialised slots are skipped by retrying the loop), a done iterator
yields nothing, and the done flag is set by a step exactly when
front = back, or next_head front = write_head, or back = write_head. -/
theorem c3_reader_iterator (ring : Ring) (dir : Direction) :
    (∀ fuel it e it', RingIter.next_dir ring dir fuel it = (some e, it') →
      ∃ s, ring.get e.id = some s ∧ s ≠ Slot.uninit)
  ∧ (∀ fuel it, it.done = true → RingIter.next_dir ring dir fuel it = (none, it))
  ∧ (∀ fuel it, it.done = false →
      (∀ e, Entry.fromRing ring it.kind
          (RingIter.advance ring dir { it with done := decide (it.front = it.back ∨
            ring.next_head it.front = it.write_head ∨ it.back = it.write_head) }).1 = some e →
        RingIter.next_dir ring dir (fuel + 1) it =
          (some e, (RingIter.advance ring dir { it with done := decide (it.front = it.back ∨
            ring.next_head it.front = it.write_head ∨ it.back = it.write_head) }).2) ∧
        (RingIter.advance ring dir { it with done := decide (it.front = it.back ∨
            ring.next_head it.front = it.write_head ∨ it.back = it.write_head) }).2.done =
          decide (it.front = it.back ∨ ring.next_head it.front = it.write_head ∨
            it.back = it.write_head))
      ∧ (Entry.fromRing ring it.kind
          (RingIter.advance ring dir { it with done := decide (it.front = it.back ∨
            ring.next_head it.front = it.write_head ∨ it.back = it.write_head) }).1 = none →
        RingIter.next_dir ring dir (fuel + 1) it =
          RingIter.next_dir ring dir fuel
            (RingIter.advance ring dir { it with done := decide (it.front = it.back ∨
              ring.next_head it.front = it.write_head ∨ it.back = it.write_head) }).2)) := by
  refine ⟨?_, ?_, ?_⟩
  · intro fuel
    induction fuel with
    | zero =>
      intro it e it' h
      simp [RingIter.next_dir] at h
    | succ n ih =>
      intro it e it' h
      by_cases hd : it.done
      · simp [RingIter.next_dir, hd] at h
      · simp only [RingIter.next_dir, hd, Bool.false_eq_true, if_false] at h
        split at h
        case _ e0 heq =>
          obtain ⟨he, hit⟩ := Prod.mk.injEq .. ▸ h
          obtain rfl : e0 = e := by injection he
          obtain ⟨hid, _, s, hs, hns⟩ := fromRing_some heq
          exact ⟨s, hid ▸ hs, hns⟩
        case _ heq =>
          exact ih _ _ _ h
  · intro fuel it hd
    cases fuel with
    | zero => rfl
    | succ n => simp [RingIter.next_dir, hd]
  · intro fuel it hd
    constructor
    · intro e hfr
      cases dir <;>
        simp_all [RingIter.next_dir, RingIter.advance]
    · intro hfr
      cases dir <;>
        simp_all [RingIter.next_dir, RingIter.advance]

/-- C4: for a bucketed entry of class length L, index i and size s whose
resolution finds L i + s beyond the current mapping, `to_slice_growable`
remaps the bucket to the maximum of L (i + 1) and twice the current length
and the single retry succeeds with the entry bytes: given that the remap
yields a mapping at least as long as requested and s is at most L, the
failure branch after the remap is unreachable. -/
theorem c4_bucket_growth (remap_data : Nat → List Nat) (direct_read : RingKind → Nat → List Nat)
    (reader : EntryReader) (e : Entry) (entry : BucketEntry)
    (hk : e.kind = .bucket entry)
    (hb : size_to_bucket entry.size < reader.buckets.length)
    (hs : entry.size ≤ bucket_to_length (size_to_bucket entry.size))
    (hstale : bucket_to_length (size_to_bucket entry.size) * entry.index + entry.size >
      (reader.buckets.getD (size_to_bucket entry.size) []).length)
    (hremap : ∀ n, n ≤ (remap_data n).length) :
    (Entry.grow_bucket_if_needed remap_data e reader).buckets =
      reader.buckets.set (size_to_bucket entry.size)
        (remap_data (Nat.max (bucket_to_length (size_to_bucket entry.size) * (entry.index + 1))
          ((reader.buckets.getD (size_to_bucket entry.size) []).length * 2)))
    ∧ Entry.to_slice_growable remap_data direct_read e reader =
      some (((remap_data (Nat.max (bucket_to_length (size_to_bucket entry.size) * (entry.index + 1))
          ((reader.buckets.getD (size_to_bucket entry.size) []).length * 2))).drop
            (bucket_to_length (size_to_bucket entry.size) * entry.index)).take entry.size) := by
  have herr : bucket_entry_to_slice reader entry =
      .error ⟨size_to_bucket entry.size,
        bucket_to_length (size_to_bucket entry.size) * (entry.index + 1)⟩ := by
    unfold bucket_entry_to_slice
    rw [if_pos hstale]
  have hgrow : (Entry.grow_bucket_if_needed remap_data e reader).buckets =
      reader.buckets.set (size_to_bucket entry.size)
        (remap_data (Nat.max (bucket_to_length (size_to_bucket entry.size) * (entry.index + 1))
          ((reader.buckets.getD (size_to_bucket entry.size) []).length * 2))) := by
    unfold Entry.grow_bucket_if_needed
    rw [hk]
    simp only [herr]
  refine ⟨hgrow, ?_⟩
  have hmem : ((Entry.grow_bucket_if_needed remap_data e reader).buckets.getD
      (size_to_bucket entry.size) []) =
      remap_data (Nat.max (bucket_to_length (size_to_bucket entry.size) * (entry.index + 1))
        ((reader.buckets.getD (size_to_bucket entry.size) []).length * 2)) := by
    rw [hgrow]
    rw [List.getD_eq_getElem?_getD, List.getElem?_set_eq_of_lt _ hb]
    rfl
  have hlen : ¬ (bucket_to_length (size_to_bucket entry.size) * entry.index + entry.size >
      (remap_data (Nat.max (bucket_to_length (size_to_bucket entry.size) * (entry.index + 1))
        ((reader.buckets.getD (size_to_bucket entry.size) []).length * 2))).length) := by
    have h1 := hremap (Nat.max (bucket_to_length (size_to_bucket entry.size) * (entry.index + 1))
      ((reader.buckets.getD (size_to_bucket entry.size) []).length * 2))
    have h2 : bucket_to_length (size_to_bucket entry.size) * entry.index + entry.size ≤
        bucket_to_length (size_to_bucket entry.size) * (entry.index + 1) := by
      have hmul : bucket_to_length (size_to_bucket entry.size) * (entry.index + 1) =
          bucket_to_length (size_to_bucket entry.size) * entry.index +
          bucket_to_length (size_to_bucket entry.size) := by ring
      omega
    have h3 := Nat.le_max_left (bucket_to_length (size_to_bucket entry.size) * (entry.index + 1))
      ((reader.buckets.getD (size_to_bucket entry.size) []).length * 2)
    have hchain := le_trans (le_trans h2 h3) h1
    omega
  have hok : bucket_entry_to_slice (Entry.grow_bucket_if_needed remap_data e reader) entry =
      .ok (((remap_data (Nat.max (bucket_to_length (size_to_bucket entry.size) * (entry.index + 1))
        ((reader.buckets.getD (size_to_bucket entry.size) []).length * 2))).drop
          (bucket_to_length (size_to_bucket entry.size) * entry.index)).take entry.size) := by
    simp only [bucket_entry_to_slice]
    rw [hmem, if_neg hlen]
  unfold Entry.to_slice_growable Entry.to_slice
  rw [hk]
  simp only [hok]

/-- C2: the spec says the direct walker searches a file exactly when its MIME
type is in TEXT_MIMES, but the source's skip condition uses a disjunction, so
a file carrying the textual MIME type text/plain, a member of TEXT_MIMES, is
skipped without being searched. -/
theorem c2_mime_gate_contradiction :
    TEXT_MIMES.contains "text/plain" = true ∧
    mime_gate_searches TEXT_MIMES "text/plain" = false ∧
    process_direct_file TEXT_MIMES (fun _ => some (0, 1)) ⟨"0_1", "text/plain", [97]⟩ =
      WalkOutcome.skip :=
  ⟨rfl, rfl, rfl⟩

/-- C8 counterexample: the filename "+1_2" does not match the anchored
digits-underscore-digits pattern, yet the walker parses it successfully
(Rust's u32 parser accepts a leading plus) and reports a hit instead of the
NotARingboard error the claim requires. -/
theorem c8_filename_counterexample :
    spec_filename_form (String.toList "+1_2") = false ∧
    process_direct_file TEXT_MIMES (fun _ => some (0, 1)) ⟨"+1_2", "", [97]⟩ =
      WalkOutcome.hit ((1 <<< 32) ||| 2) 0 1 ∧
    WalkOutcome.hit ((1 <<< 32) ||| 2) 0 1 ≠ WalkOutcome.notARingboard "+1_2" :=
  ⟨rfl, rfl, by simp⟩

/-- C8 (amended): for a visited non-dot file that passes the MIME gate and
whose contents match the query, the walker reports a hit with composite id
built from the two halves of the filename when both halves parse as u32
(decimal digits with an optional leading plus), and otherwise produces
NotARingboard; a name matching the strict digits-underscore-digits pattern
with both values fitting in 32 bits always parses, the id being the ring
number shifted left 32 bits or-ed with the slot number. -/
theorem c8_direct_walk_filenames (text_mimes : List String)
    (find : List Nat → Option (Nat × Nat)) (f : DirectFile) (s e : Nat)
    (h1 : ¬ (f.name = "." ∨ f.name = ".."))
    (h2 : mime_gate_searches text_mimes f.mime = true)
    (h3 : find f.contents = some (s, e)) :
    (process_direct_file text_mimes find f =
      match parse_direct_file_id f.name.toList with
      | some id => WalkOutcome.hit id s e
      | none => WalkOutcome.notARingboard f.name) ∧
    (spec_filename_form f.name.toList = true →
      ∀ p, split_once '_' f.name.toList = some p →
        parse_direct_file_id f.name.toList =
          some ((p.1.foldl (fun a c => a * 10 + (c.toNat - 48)) 0 <<< 32) |||
            p.2.foldl (fun a c => a * 10 + (c.toNat - 48)) 0)) := by
  constructor
  · simp [process_direct_file, h1, h2, h3]
  · intro hform p hsplit
    unfold spec_filename_form at hform
    rw [hsplit] at hform
    simp only [Bool.and_eq_true, decide_eq_true_eq, Bool.not_eq_true'] at hform
    obtain ⟨⟨⟨⟨⟨hne1, hdig1⟩, hne2⟩, hdig2⟩, hb1⟩, hb2⟩ := hform
    rw [List.isEmpty_eq_false] at hne1 hne2
    unfold parse_direct_file_id
    rw [hsplit]
    simp only [Option.some_bind]
    rw [u32_from_str_digits p.1 hne1 hdig1 hb1]
    simp only [Option.some_bind]
    rw [u32_from_str_digits p.2 hne2 hdig2 hb2]
    rfl

/-- C8 witness: a well-formed filename with empty MIME and matching contents
yields a hit with the expected composite id. -/
theorem c8_direct_walk_filenames_witness :
    mime_gate_searches TEXT_MIMES "" = true ∧
    process_direct_file TEXT_MIMES (fun _ => some (2, 3)) ⟨"12_34", "", [5]⟩ =
      WalkOutcome.hit ((12 <<< 32) ||| 34) 2 3 := by
  refine ⟨rfl, ?_⟩
  have h := (c8_direct_walk_filenames TEXT_MIMES (fun _ => some (2, 3)) ⟨"12_34", "", [5]⟩ 2 3
    (by decide) rfl rfl).1
  rw [h]
  rfl

/-- C3 witness: a three-slot ring of concrete file entries; a forward step
from a live iterator yields the entry at the front and that slot is concrete. -/
theorem c3_reader_iterator_witness :
    RingIter.next_dir ⟨[Slot.file, Slot.file, Slot.file], 2⟩ Direction.forward 2
        ⟨RingKind.main, 2, 0, 1, false⟩ =
      (some ⟨0, RingKind.main, Kind.file⟩, ⟨RingKind.main, 2, 1, 1, false⟩) ∧
    (∃ s, Ring.get ⟨[Slot.file, Slot.file, Slot.file], 2⟩ 0 = some s ∧ s ≠ Slot.uninit) :=
  ⟨by decide, (c3_reader_iterator ⟨[Slot.file, Slot.file, Slot.file], 2⟩ Direction.forward).1
    2 ⟨RingKind.main, 2, 0, 1, false⟩ ⟨0, RingKind.main, Kind.file⟩
    ⟨RingKind.main, 2, 1, 1, false⟩ (by decide)⟩

/-- C4 witness: a stale empty bucket 0 and a 3-byte entry at index 0; the
resolver remaps and the retry returns the three bytes. -/
theorem c4_bucket_growth_witness :
    (3 : Nat) ≤ bucket_to_length (size_to_bucket 3) ∧
    Entry.to_slice_growable (fun n => List.replicate n 7) (fun _ _ => [])
        ⟨5, RingKind.main, Kind.bucket ⟨3, 0⟩⟩ ⟨List.replicate 11 []⟩ = some [7, 7, 7] := by
  constructor
  · simp [size_to_bucket, Nat.clog, bucket_to_length]
  · have h := c4_bucket_growth (fun n => List.replicate n 7) (fun _ _ => [])
      ⟨List.replicate 11 []⟩ ⟨5, RingKind.main, Kind.bucket ⟨3, 0⟩⟩ ⟨3, 0⟩ rfl
      (by simp [size_to_bucket, Nat.clog])
      (by simp [size_to_bucket, Nat.clog, bucket_to_length])
      (by simp [size_to_bucket, Nat.clog])
      (by simp)
    rw [h.2]
    simp [size_to_bucket, Nat.clog, bucket_to_length]

theorem testBit_mask_not (id j : Nat) :
    (mask_not id).testBit j = ((decide (j < 32)).xor (decide (id = j))) := by
  unfold mask_not
  rw [Nat.testBit_xor, Nat.testBit_two_pow_sub_one, Nat.testBit_two_pow]

theorem land_two_pow_ne_zero (n id : Nat) :
    decide (n &&& (1 <<< id) ≠ 0) = n.testBit id := by
  rw [Nat.one_shiftLeft, Nat.and_two_pow]
  cases h : n.testBit id
  · simp
  · simp [(Nat.two_pow_pos id).ne']

theorem excl_iff (cl : Clients) : cl.excl ↔
    ∀ j, ¬ (cl.connections.testBit j = true ∧ cl.pending_closes.testBit j = true) := by
  unfold Clients.excl
  constructor
  · intro h j hj
    have h2 := congrArg (fun n => Nat.testBit n j) h
    simp only [Nat.testBit_and, Nat.zero_testBit, hj.1, hj.2, Bool.and_self] at h2
    exact Bool.noConfusion h2
  · intro h
    apply Nat.eq_of_testBit_eq
    intro j
    rw [Nat.testBit_and, Nat.zero_testBit]
    cases h1 : cl.connections.testBit j
    · simp
    · cases h2 : cl.pending_closes.testBit j
      · simp
      · exact absurd ⟨h1, h2⟩ (h j)

/-- C10: the client-table bitsets keep the connected and pending-close bits
mutually exclusive across `set_connected`, `set_disconnected`, `set_closed`
and `take_pending_recv`, and a closed client has all three of its bits
cleared. -/
theorem c10_client_bitsets (cl : Clients) (id : Nat) (hid : id < 32) (hexcl : cl.excl) :
    (cl.set_connected id).excl ∧ (cl.set_disconnected id).excl ∧
    (cl.set_closed id).excl ∧ ((cl.take_pending_recv id).2).excl ∧
    (cl.set_closed id).is_connected id = false ∧
    (cl.set_closed id).is_closing id = false ∧
    (cl.set_closed id).pending_recv.testBit id = false := by
  have hb := (excl_iff cl).mp hexcl
  refine ⟨?_, ?_, ?_, ?_, ?_, ?_, ?_⟩
  · apply (excl_iff _).mpr
    intro j hj
    obtain ⟨h1, h2⟩ := hj
    simp only [Clients.set_connected, Nat.testBit_or, Nat.testBit_and, testBit_mask_not,
      Nat.one_shiftLeft, Nat.testBit_two_pow, Bool.or_eq_true, Bool.and_eq_true] at h1 h2
    by_cases hj : id = j
    · subst hj
      simp [hid] at h2
    · simp [hj] at h1 h2
      exact hb j ⟨h1, h2.1⟩
  · apply (excl_iff _).mpr
    intro j hj
    obtain ⟨h1, h2⟩ := hj
    simp only [Clients.set_disconnected, Nat.testBit_or, Nat.testBit_and, testBit_mask_not,
      Nat.one_shiftLeft, Nat.testBit_two_pow, Bool.or_eq_true, Bool.and_eq_true] at h1 h2
    by_cases hj : id = j
    · subst hj
      simp [hid] at h1
    · simp [hj] at h1 h2
      exact hb j ⟨h1.1, h2⟩
  · apply (excl_iff _).mpr
    intro j hj
    obtain ⟨h1, h2⟩ := hj
    simp only [Clients.set_closed, Nat.testBit_and, testBit_mask_not,
      Bool.and_eq_true] at h1 h2
    exact hb j ⟨h1.1, h2.1⟩
  · apply (excl_iff _).mpr
    intro j hj
    exact hb j hj
  · simp only [Clients.is_connected, Clients.set_closed, land_two_pow_ne_zero,
      Nat.testBit_and, testBit_mask_not]
    simp [hid]
  · simp only [Clients.is_closing, Clients.set_closed, land_two_pow_ne_zero,
      Nat.testBit_and, testBit_mask_not]
    simp [hid]
  · simp only [Clients.set_closed, Nat.testBit_and, testBit_mask_not]
    simp [hid]

theorem pushes_le_two (hr : List Nat → List (List Nat) → SendMsgBufs →
      Except CliError (Option Reply × SendMsgBufs))
    (s : Reactor) (c : Completion) (r : Reactor × List Sqe × Bool)
    (h : handle_completion hr s c = .ok r) : r.2.1.length ≤ 2 := by
  cases c with
  | accept res more =>
    cases res with
    | ok client =>
      simp only [handle_completion] at h
      obtain rfl := (Except.ok.injEq .. ▸ h :)
      cases more <;> simp
    | err_nfile =>
      obtain rfl := (Except.ok.injEq .. ▸ h :)
      simp
    | err_other => exact absurd h (by simp [handle_completion])
  | recv fd res buf_index more =>
    cases res with
    | ok payload control truncated =>
      simp only [handle_completion] at h
      split at h
      · exact absurd h (by simp)
      · split at h
        · split at h <;> (obtain rfl := (Except.ok.injEq .. ▸ h :); simp)
        · split at h
          · obtain rfl := (Except.ok.injEq .. ▸ h :)
            simp
          · split at h
            · exact absurd h (by simp)
            · rename_i clients1 bufs1 response heq
              obtain rfl := (Except.ok.injEq .. ▸ h :)
              cases response <;> cases hcon : clients1.is_connected fd <;> cases more <;>
                simp [hcon]
    | err_msgsize =>
      obtain rfl := (Except.ok.injEq .. ▸ h :)
      simp
    | err_nobufs =>
      obtain rfl := (Except.ok.injEq .. ▸ h :)
      simp
    | err_connreset =>
      obtain rfl := (Except.ok.injEq .. ▸ h :)
      simp
    | err_other => exact absurd h (by simp [handle_completion])
  | sendmsg fd token buf_index res =>
    cases res with
    | ok =>
      simp only [handle_completion] at h
      split at h
      · obtain rfl := (Except.ok.injEq .. ▸ h :)
        split <;> simp
      · obtain rfl := (Except.ok.injEq .. ▸ h :)
        simp
    | err_broken_pipe =>
      simp only [handle_completion] at h
      split at h <;> (obtain rfl := (Except.ok.injEq .. ▸ h :); simp)
    | err_connreset =>
      simp only [handle_completion] at h
      split at h <;> (obtain rfl := (Except.ok.injEq .. ▸ h :); simp)
    | err_other => exact absurd h (by simp [handle_completion])
  | close fd success =>
    simp only [handle_completion] at h
    split at h
    · exact absurd h (by simp)
    · split at h <;> (obtain rfl := (Except.ok.injEq .. ▸ h :); simp)
  | read_signals pollin =>
    simp only [handle_completion] at h
    split at h
    · obtain rfl := (Except.ok.injEq .. ▸ h :)
      simp
    · exact absurd h (by simp)
  | low_mem pollerr pollpri more =>
    simp only [handle_completion] at h
    split at h
    · exact absurd h (by simp)
    · split at h
      · obtain rfl := (Except.ok.injEq .. ▸ h :)
        cases more <;> simp
      · exact absurd h (by simp)

theorem wfBits_ops (cl : Clients) (id : Nat) (hid : id < 32) (h : cl.wfBits) :
    (cl.set_connected id).wfBits ∧ (cl.set_disconnected id).wfBits ∧
    (cl.set_closed id).wfBits ∧ (cl.set_pending_recv id).wfBits ∧
    ((cl.take_pending_recv id).2).wfBits := by
  obtain ⟨h1, h2, h3⟩ := h
  have hp : (1 <<< id : Nat) < 2 ^ 32 := by
    rw [Nat.one_shiftLeft]
    exact Nat.pow_lt_pow_right (by norm_num) hid
  have hand : ∀ a b : Nat, a < 2 ^ 32 → a &&& b < 2 ^ 32 :=
    fun a b ha => lt_of_le_of_lt Nat.and_le_left ha
  exact ⟨⟨Nat.or_lt_two_pow h1 hp, hand _ _ h2, hand _ _ h3⟩,
    ⟨hand _ _ h1, Nat.or_lt_two_pow h2 hp, h3⟩,
    ⟨hand _ _ h1, hand _ _ h2, hand _ _ h3⟩,
    ⟨h1, h2, Nat.or_lt_two_pow h3 hp⟩,
    ⟨h1, h2, hand _ _ h3⟩⟩

theorem handle_preserves_wfBits (hr : List Nat → List (List Nat) → SendMsgBufs →
      Except CliError (Option Reply × SendMsgBufs))
    (s : Reactor) (c : Completion) (r : Reactor × List Sqe × Bool)
    (hwf : s.clients.wfBits) (hc : c.wf) (h : handle_completion hr s c = .ok r) :
    r.1.clients.wfBits := by
  cases c with
  | accept res more =>
    cases res with
    | ok client =>
      simp only [handle_completion] at h
      obtain rfl := (Except.ok.injEq .. ▸ h :)
      exact hwf
    | err_nfile =>
      obtain rfl := (Except.ok.injEq .. ▸ h :)
      exact hwf
    | err_other => exact absurd h (by simp [handle_completion])
  | recv fd res buf_index more =>
    have hfd : fd < 32 := hc
    cases res with
    | ok payload control truncated =>
      simp only [handle_completion] at h
      split at h
      · exact absurd h (by simp)
      · split at h
        · split at h <;> (obtain rfl := (Except.ok.injEq .. ▸ h :))
          · exact hwf
          · exact (wfBits_ops s.clients fd hfd hwf).2.1
        · split at h
          · obtain rfl := (Except.ok.injEq .. ▸ h :)
            exact hwf
          · split at h
            · exact absurd h (by simp)
            · rename_i clients1 bufs1 response heq
              obtain rfl := (Except.ok.injEq .. ▸ h :)
              have hcl : clients1.wfBits := by
                split at heq
                · cases h2 : hr payload control s.send_bufs with
                  | error e =>
                    rw [h2] at heq
                    exact absurd heq (by simp)
                  | ok p =>
                    obtain ⟨resp, bufs⟩ := p
                    rw [h2] at heq
                    simp only [Except.ok.injEq, Prod.mk.injEq] at heq
                    rw [← heq.1]
                    exact hwf
                · cases h2 : connect payload s.send_bufs with
                  | error e =>
                    rw [h2] at heq
                    exact absurd heq (by simp)
                  | ok vrb =>
                    obtain ⟨⟨valid, reply⟩, bufs⟩ := vrb
                    rw [h2] at heq
                    dsimp only at heq
                    split at heq
                    · simp only [Except.ok.injEq, Prod.mk.injEq] at heq
                      rw [← heq.1]
                      exact (wfBits_ops s.clients fd hfd hwf).1
                    · simp only [Except.ok.injEq, Prod.mk.injEq] at heq
                      rw [← heq.1]
                      exact (wfBits_ops s.clients fd hfd hwf).2.1
              exact hcl
    | err_msgsize =>
      obtain rfl := (Except.ok.injEq .. ▸ h :)
      exact (wfBits_ops s.clients fd hfd hwf).2.2.2.1
    | err_nobufs =>
      obtain rfl := (Except.ok.injEq .. ▸ h :)
      exact (wfBits_ops s.clients fd hfd hwf).2.2.2.1
    | err_connreset =>
      obtain rfl := (Except.ok.injEq .. ▸ h :)
      exact (wfBits_ops s.clients fd hfd hwf).2.1
    | err_other => exact absurd h (by simp [handle_completion])
  | sendmsg fd token buf_index res =>
    have hfd : fd < 32 := hc
    cases res with
    | ok =>
      simp only [handle_completion] at h
      split at h <;> (obtain rfl := (Except.ok.injEq .. ▸ h :))
      · exact (wfBits_ops s.clients fd hfd hwf).2.2.2.2
      · exact hwf
    | err_broken_pipe =>
      simp only [handle_completion] at h
      split at h <;> (obtain rfl := (Except.ok.injEq .. ▸ h :))
      · exact hwf
      · exact (wfBits_ops s.clients fd hfd hwf).2.1
    | err_connreset =>
      simp only [handle_completion] at h
      split at h <;> (obtain rfl := (Except.ok.injEq .. ▸ h :))
      · exact hwf
      · exact (wfBits_ops s.clients fd hfd hwf).2.1
    | err_other => exact absurd h (by simp [handle_completion])
  | close fd success =>
    have hfd : fd < 32 := hc
    simp only [handle_completion] at h
    split at h
    · exact absurd h (by simp)
    · split at h <;> (obtain rfl := (Except.ok.injEq .. ▸ h :)) <;>
        exact (wfBits_ops s.clients fd hfd hwf).2.2.1
  | read_signals pollin =>
    simp only [handle_completion] at h
    split at h
    · obtain rfl := (Except.ok.injEq .. ▸ h :)
      exact hwf
    · exact absurd h (by simp)
  | low_mem pollerr pollpri more =>
    simp only [handle_completion] at h
    split at h
    · exact absurd h (by simp)
    · split at h
      · obtain rfl := (Except.ok.injEq .. ▸ h :)
        exact hwf
      · exact absurd h (by simp)

theorem reachable_wfBits (hr : List Nat → List (List Nat) → SendMsgBufs →
      Except CliError (Option Reply × SendMsgBufs))
    (s : Reactor) (h : Reachable hr s) : s.clients.wfBits := by
  induction h with
  | init =>
    refine ⟨?_, ?_, ?_⟩ <;> simp [init_reactor]
  | step s c r hre hc hh ih => exact handle_preserves_wfBits hr s c r ih hc hh

theorem connected_id_lt (cl : Clients) (h : cl.wfBits) (id : Nat)
    (hc : cl.is_connected id = true) : id < 32 := by
  by_contra hge
  push_neg at hge
  unfold Clients.is_connected at hc
  rw [land_two_pow_ne_zero] at hc
  have : cl.connections.testBit id = false :=
    Nat.testBit_lt_two_pow (lt_of_lt_of_le h.1 (Nat.pow_le_pow_right (by norm_num) hge))
  rw [this] at hc
  exact Bool.noConfusion hc

/-- C5 (amended): in every reachable reactor state at most 32 (that is,
MAX_NUM_CLIENTS) clients are connected: no id of 32 or above ever has its
connected bit set and at most 32 ids are connected. An accept completing
with NFILE sets pending_accept and pushes nothing; a close completion
re-queues the accept exactly when pending_accept is set and no pending-close
bits remain after marking the client closed. Additionally (the amendment)
the accept handler itself re-arms the multishot accept when a successful
accept completion lacks the MORE flag. -/
theorem c5_accept_discipline (hr : List Nat → List (List Nat) → SendMsgBufs →
      Except CliError (Option Reply × SendMsgBufs)) :
    (∀ s, Reachable hr s → ∀ id, 32 ≤ id → s.clients.is_connected id = false)
  ∧ (∀ s, Reachable hr s → ∀ n,
      ((Finset.range n).filter (fun id => s.clients.is_connected id = true)).card ≤ 32)
  ∧ (∀ s more, handle_completion hr s (.accept .err_nfile more) =
      .ok ({ s with pending_accept := true }, [], false))
  ∧ (∀ s fd success r, handle_completion hr s (.close fd success) = .ok r →
      (Sqe.accept ∈ r.2.1 ↔
        s.pending_accept = true ∧ (s.clients.set_closed fd).pending_closes = 0))
  ∧ (∀ s client, handle_completion hr s (.accept (.ok client) false) =
      .ok ({ s with client_buffers := s.client_buffers.set client true },
        [Sqe.accept, Sqe.recvmsg client], false)) := by
  refine ⟨?_, ?_, ?_, ?_, ?_⟩
  · intro s hre id hid
    cases hc : s.clients.is_connected id with
    | false => rfl
    | true =>
      have := connected_id_lt s.clients (reachable_wfBits hr s hre) id hc
      omega
  · intro s hre n
    have hsub : (Finset.range n).filter (fun id => s.clients.is_connected id = true) ⊆
        Finset.range 32 := by
      intro x hx
      rw [Finset.mem_filter] at hx
      rw [Finset.mem_range]
      exact connected_id_lt s.clients (reachable_wfBits hr s hre) x hx.2
    calc ((Finset.range n).filter (fun id => s.clients.is_connected id = true)).card
        ≤ (Finset.range 32).card := Finset.card_le_card hsub
      _ = 32 := Finset.card_range 32
  · intro s more
    rfl
  · intro s fd success r h
    simp only [handle_completion] at h
    split at h
    · exact absurd h (by simp)
    · split at h
      · rename_i hcond
        obtain rfl := (Except.ok.injEq .. ▸ h :)
        simpa using hcond
      · rename_i hcond
        obtain rfl := (Except.ok.injEq .. ▸ h :)
        simpa using hcond
  · intro s client
    rfl

/-- C5 counterexample: a successful accept completion without the MORE flag
makes the handler push the accept entry even though no close completed, so
the accept is not re-queued only by close completions as the claim states. -/
theorem c5_accept_requeue_counterexample :
    handle_completion (fun _ _ b => .ok (none, b)) init_reactor
        (.accept (.ok 0) false) =
      .ok ({ init_reactor with client_buffers := init_reactor.client_buffers.set 0 true },
        [Sqe.accept, Sqe.recvmsg 0], false) ∧
    Sqe.accept ∈ [Sqe.accept, Sqe.recvmsg 0] ∧
    (∀ fd success, (Completion.accept (.ok 0) false) ≠ Completion.close fd success) :=
  ⟨rfl, by simp, by intro fd success h; exact Completion.noConfusion h⟩

theorem step_no_recv_push (hr : List Nat → List (List Nat) → SendMsgBufs →
      Except CliError (Option Reply × SendMsgBufs)) (fd : Nat)
    (s : Reactor) (c : Completion) (r : Reactor × List Sqe × Bool)
    (h1 : ¬ c.assigns_fd fd) (h2 : ¬ c.is_recv_for fd) (h3 : ¬ c.is_ok_send_for fd)
    (h : handle_completion hr s c = .ok r) : Sqe.recvmsg fd ∉ r.2.1 := by
  cases c with
  | accept res more =>
    cases res with
    | ok client =>
      have hne : ¬ (client = fd) := h1
      simp only [handle_completion] at h
      obtain rfl := (Except.ok.injEq .. ▸ h :)
      cases more <;> simp <;> omega
    | err_nfile =>
      obtain rfl := (Except.ok.injEq .. ▸ h :)
      simp
    | err_other => exact absurd h (by simp [handle_completion])
  | recv fd1 res buf_index more =>
    have hne : ¬ (fd1 = fd) := h2
    cases res with
    | ok payload control truncated =>
      simp only [handle_completion] at h
      split at h
      · exact absurd h (by simp)
      · split at h
        · split at h <;> (obtain rfl := (Except.ok.injEq .. ▸ h :)) <;> simp
        · split at h
          · obtain rfl := (Except.ok.injEq .. ▸ h :)
            simp
          · split at h
            · exact absurd h (by simp)
            · rename_i clients1 bufs1 response heq
              obtain rfl := (Except.ok.injEq .. ▸ h :)
              cases response <;> cases hcon : clients1.is_connected fd1 <;> cases more <;>
                simp [hcon] <;> omega
    | err_msgsize =>
      obtain rfl := (Except.ok.injEq .. ▸ h :)
      simp
    | err_nobufs =>
      obtain rfl := (Except.ok.injEq .. ▸ h :)
      simp
    | err_connreset =>
      obtain rfl := (Except.ok.injEq .. ▸ h :)
      simp
    | err_other => exact absurd h (by simp [handle_completion])
  | sendmsg fd1 token buf_index res =>
    cases res with
    | ok =>
      have hne : ¬ (fd1 = fd) := h3
      simp only [handle_completion] at h
      split at h <;> (obtain rfl := (Except.ok.injEq .. ▸ h :))
      · split <;> simp <;> omega
      · simp
    | err_broken_pipe =>
      simp only [handle_completion] at h
      split at h <;> (obtain rfl := (Except.ok.injEq .. ▸ h :)) <;> simp
    | err_connreset =>
      simp only [handle_completion] at h
      split at h <;> (obtain rfl := (Except.ok.injEq .. ▸ h :)) <;> simp
    | err_other => exact absurd h (by simp [handle_completion])
  | close fd1 success =>
    simp only [handle_completion] at h
    split at h
    · exact absurd h (by simp)
    · split at h <;> (obtain rfl := (Except.ok.injEq .. ▸ h :)) <;> simp
  | read_signals pollin =>
    simp only [handle_completion] at h
    split at h
    · obtain rfl := (Except.ok.injEq .. ▸ h :)
      simp
    · exact absurd h (by simp)
  | low_mem pollerr pollpri more =>
    simp only [handle_completion] at h
    split at h
    · exact absurd h (by simp)
    · split at h
      · obtain rfl := (Except.ok.injEq .. ▸ h :)
        cases more <;> simp
      · exact absurd h (by simp)

/-- C6: a recv completion failing with NOBUFS or MSGSIZE marks the client
pending_recv and pushes nothing; a send completion failing with BrokenPipe
or ConnectionReset never re-arms the recv; a step only ever pushes a recvmsg
for a client on an accept assigning that client, a recv completion for it,
or a successful send completion for it; hence along any completion sequence
with none of those for the client (after NOBUFS the dead multishot recv
produces no further recv completions and the occupied slot cannot be
re-accepted), no recvmsg for that client is ever submitted. -/
theorem c6_recv_backpressure (hr : List Nat → List (List Nat) → SendMsgBufs →
      Except CliError (Option Reply × SendMsgBufs)) (fd : Nat) :
    (∀ s buf_index more,
      handle_completion hr s (.recv fd .err_nobufs buf_index more) =
        .ok ({ s with clients := s.clients.set_pending_recv fd }, [], false) ∧
      handle_completion hr s (.recv fd .err_msgsize buf_index more) =
        .ok ({ s with clients := s.clients.set_pending_recv fd }, [], false))
  ∧ (∀ s token buf_index res r,
      (res = SendRes.err_broken_pipe ∨ res = SendRes.err_connreset) →
      handle_completion hr s (.sendmsg fd token buf_index res) = .ok r →
      Sqe.recvmsg fd ∉ r.2.1)
  ∧ (∀ s c r, ¬ c.assigns_fd fd → ¬ c.is_recv_for fd → ¬ c.is_ok_send_for fd →
      handle_completion hr s c = .ok r → Sqe.recvmsg fd ∉ r.2.1)
  ∧ (∀ cap s sq cs,
      (∀ c ∈ cs, ¬ c.assigns_fd fd ∧ ¬ c.is_recv_for fd ∧ ¬ c.is_ok_send_for fd) →
      Sqe.recvmsg fd ∉ (reactor_loop hr cap s sq cs).2) := by
  refine ⟨?_, ?_, ?_, ?_⟩
  · intro s buf_index more
    exact ⟨rfl, rfl⟩
  · intro s token buf_index res r hres h
    rcases hres with rfl | rfl <;>
      (simp only [handle_completion] at h;
       split at h <;> (obtain rfl := (Except.ok.injEq .. ▸ h :)) <;> simp)
  · intro s c r ha hb hc h
    exact step_no_recv_push hr fd s c r ha hb hc h
  · intro cap s sq cs
    induction cs generalizing s sq with
    | nil =>
      intro hall
      simp [reactor_loop]
    | cons c rest ih =>
      intro hall
      have hc := hall c (by simp)
      have hrest : ∀ c ∈ rest, ¬ c.assigns_fd fd ∧ ¬ c.is_recv_for fd ∧
          ¬ c.is_ok_send_for fd := fun c hm => hall c (by simp [hm])
      simp only [reactor_loop]
      split
      · simp
      · cases hh : handle_completion hr s c with
        | error e => simp
        | ok res =>
          obtain ⟨s1, pushes, shutdown⟩ := res
          have hnp : Sqe.recvmsg fd ∉ pushes :=
            step_no_recv_push hr fd s c _ hc.1 hc.2.1 hc.2.2 hh
          dsimp only
          cases shutdown with
          | true =>
            cases hpa : push_all cap sq pushes with
            | error e => simpa using hnp
            | ok sq1 => simpa using hnp
          | false =>
            cases hpa : push_all cap sq pushes with
            | error e => simpa using hnp
            | ok sq1 =>
              simp only [Bool.false_eq_true, if_false, List.mem_append]
              intro hmem
              rcases hmem with hm | hm
              · exact hnp hm
              · exact ih s1 sq1 hrest hm

theorem connect_error_not_push (payload : List Nat) (bufs : SendMsgBufs) (e : CliError)
    (h : connect payload bufs = .error e) : e ≠ .internal pushErrorContext := by
  unfold connect at h
  cases halloc : bufs.alloc [protocol_VERSION] with
  | none =>
    rw [halloc] at h
    dsimp only at h
    obtain rfl := (Except.error.injEq .. ▸ h :)
    intro habs
    obtain hstr := (CliError.internal.injEq .. ▸ habs :)
    exact absurd hstr (by decide)
  | some p =>
    obtain ⟨reply, bufs1⟩ := p
    rw [halloc] at h
    exact absurd h (by simp)

theorem handle_error_not_push (hr : List Nat → List (List Nat) → SendMsgBufs →
      Except CliError (Option Reply × SendMsgBufs))
    (hben : ∀ p ctl b, hr p ctl b ≠ .error (.internal pushErrorContext))
    (s : Reactor) (c : Completion) (e : CliError)
    (h : handle_completion hr s c = .error e) : e ≠ .internal pushErrorContext := by
  cases c with
  | accept res more =>
    cases res with
    | ok client => exact absurd h (by simp [handle_completion])
    | err_nfile => exact absurd h (by simp [handle_completion])
    | err_other =>
      obtain rfl := (Except.error.injEq .. ▸ h :)
      intro habs
      exact CliError.noConfusion habs
  | recv fd res buf_index more =>
    cases res with
    | ok payload control truncated =>
      simp only [handle_completion] at h
      split at h
      · obtain rfl := (Except.error.injEq .. ▸ h :)
        intro habs
        obtain hstr := (CliError.internal.injEq .. ▸ habs :)
        exact absurd hstr (by decide)
      · split at h
        · split at h <;> exact absurd h (by simp)
        · split at h
          · exact absurd h (by simp)
          · split at h
            · rename_i heq
              obtain rfl := (Except.error.injEq .. ▸ h :)
              split at heq
              · cases h2 : hr payload control s.send_bufs with
                | error e1 =>
                  rw [h2] at heq
                  dsimp only at heq
                  obtain rfl := (Except.error.injEq .. ▸ heq :)
                  intro habs
                  exact hben payload control s.send_bufs (habs ▸ h2)
                | ok p =>
                  obtain ⟨resp, bufs⟩ := p
                  rw [h2] at heq
                  exact absurd heq (by simp)
              · cases h2 : connect payload s.send_bufs with
                | error e1 =>
                  rw [h2] at heq
                  dsimp only at heq
                  obtain rfl := (Except.error.injEq .. ▸ heq :)
                  exact connect_error_not_push payload s.send_bufs _ h2
                | ok vrb =>
                  obtain ⟨⟨valid, reply⟩, bufs⟩ := vrb
                  rw [h2] at heq
                  dsimp only at heq
                  split at heq <;> exact absurd heq (by simp)
            · exact absurd h (by simp)
    | err_msgsize => exact absurd h (by simp [handle_completion])
    | err_nobufs => exact absurd h (by simp [handle_completion])
    | err_connreset => exact absurd h (by simp [handle_completion])
    | err_other =>
      obtain rfl := (Except.error.injEq .. ▸ h :)
      intro habs
      exact CliError.noConfusion habs
  | sendmsg fd token buf_index res =>
    cases res with
    | ok =>
      simp only [handle_completion] at h
      split at h <;> exact absurd h (by simp)
    | err_broken_pipe =>
      simp only [handle_completion] at h
      split at h <;> exact absurd h (by simp)
    | err_connreset =>
      simp only [handle_completion] at h
      split at h <;> exact absurd h (by simp)
    | err_other =>
      obtain rfl := (Except.error.injEq .. ▸ h :)
      intro habs
      exact CliError.noConfusion habs
  | close fd success =>
    simp only [handle_completion] at h
    split at h
    · obtain rfl := (Except.error.injEq .. ▸ h :)
      intro habs
      exact CliError.noConfusion habs
    · split at h <;> exact absurd h (by simp)
  | read_signals pollin =>
    simp only [handle_completion] at h
    split at h
    · exact absurd h (by simp)
    · obtain rfl := (Except.error.injEq .. ▸ h :)
      intro habs
      obtain hstr := (CliError.internal.injEq .. ▸ habs :)
      exact absurd hstr (by decide)
  | low_mem pollerr pollpri more =>
    simp only [handle_completion] at h
    split at h
    · obtain rfl := (Except.error.injEq .. ▸ h :)
      intro habs
      obtain hstr := (CliError.internal.injEq .. ▸ habs :)
      exact absurd hstr (by decide)
    · split at h
      · exact absurd h (by simp)
      · obtain rfl := (Except.error.injEq .. ▸ h :)
        intro habs
        obtain hstr := (CliError.internal.injEq .. ▸ habs :)
        exact absurd hstr (by decide)

theorem push_all_ok (cap : Nat) (sq pushes : List Sqe)
    (h : sq.length + pushes.length ≤ cap) :
    ∃ sq1, push_all cap sq pushes = .ok sq1 ∧
      sq1.length = sq.length + pushes.length := by
  induction pushes generalizing sq with
  | nil => exact ⟨sq, rfl, by simp⟩
  | cons p rest ih =>
    have hlt : sq.length < cap := by
      simp at h
      omega
    obtain ⟨sq1, hok, hlen⟩ := ih (sq ++ [p]) (by simp at h ⊢; omega)
    refine ⟨sq1, ?_, ?_⟩
    · simp only [push_all, if_pos hlt]
      exact hok
    · rw [hlen]
      simp
      omega

theorem loop_no_push_error (hr : List Nat → List (List Nat) → SendMsgBufs →
      Except CliError (Option Reply × SendMsgBufs))
    (hben : ∀ p ctl b, hr p ctl b ≠ .error (.internal pushErrorContext))
    (cap : Nat) (cs : List Completion) :
    ∀ s sq, sq.length ≤ cap →
      (reactor_loop hr cap s sq cs).1 ≠ .error (.internal pushErrorContext) := by
  induction cs with
  | nil =>
    intro s sq hlen
    simp [reactor_loop]
  | cons c rest ih =>
    intro s sq hlen
    simp only [reactor_loop]
    split
    · simp
    · rename_i hfree
      cases hh : handle_completion hr s c with
      | error e =>
        dsimp only
        intro habs
        obtain rfl := (Except.error.injEq .. ▸ habs :)
        exact handle_error_not_push hr hben s c _ hh rfl
      | ok res =>
        obtain ⟨s1, pushes, shutdown⟩ := res
        have hp2 : pushes.length ≤ 2 := pushes_le_two hr s c _ hh
        have hle : sq.length + pushes.length ≤ cap := by omega
        obtain ⟨sq1, hok, hlen1⟩ := push_all_ok cap sq pushes hle
        dsimp only
        rw [hok]
        cases shutdown with
        | true => simp
        | false =>
          simp only [Bool.false_eq_true, if_false]
          exact ih s1 sq1 (by omega)

/-- C9: every completion handler pushes at most two submission entries, the
loop refuses to dequeue a completion when fewer than two submission slots
are free, and consequently the loop never surfaces the internal error
derived from a submission-queue push failure, provided the request handler
itself never returns that exact error. -/
theorem c9_submission_discipline (hr : List Nat → List (List Nat) → SendMsgBufs →
      Except CliError (Option Reply × SendMsgBufs))
    (hben : ∀ p ctl b, hr p ctl b ≠ .error (.internal pushErrorContext)) :
    (∀ s c r, handle_completion hr s c = .ok r → r.2.1.length ≤ 2)
  ∧ (∀ cap s sq c cs, cap - sq.length < 2 →
      reactor_loop hr cap s sq (c :: cs) = ((.ok (s, sq)), []))
  ∧ (∀ cap s sq cs, sq.length ≤ cap →
      (reactor_loop hr cap s sq cs).1 ≠ .error (.internal pushErrorContext)) := by
  refine ⟨?_, ?_, ?_⟩
  · intro s c r h
    exact pushes_le_two hr s c r h
  · intro cap s sq c cs hfree
    simp [reactor_loop, hfree]
  · intro cap s sq cs hlen
    exact loop_no_push_error hr hben cap cs s sq hlen

theorem alloc_some_bytes (bufs : SendMsgBufs) (bytes : List Nat) (p : Reply × SendMsgBufs)
    (h : bufs.alloc bytes = some p) : p.1.bytes = bytes := by
  unfold SendMsgBufs.alloc at h
  cases hft : bufs.free_tokens with
  | nil =>
    rw [hft] at h
    exact absurd h (by simp)
  | cons t rest =>
    rw [hft] at h
    dsimp only at h
    obtain rfl := (Option.some.injEq .. ▸ h :)
    rfl

theorem set_disconnected_not_connected (cl : Clients) (fd : Nat)
    (h : cl.is_connected fd = false) :
    (cl.set_disconnected fd).is_connected fd = false := by
  unfold Clients.is_connected at *
  rw [land_two_pow_ne_zero] at *
  unfold Clients.set_disconnected
  dsimp only
  rw [Nat.testBit_and]
  simp [h]

/-- C7: `connect` replies with exactly one byte holding the server protocol
version, reporting validity exactly when the client byte matches; on a
mismatch the reactor still pushes the reply send, linked (IO_LINK) to a
close of the connection, and the client is never marked connected. -/
theorem c7_connect_handshake (hr : List Nat → List (List Nat) → SendMsgBufs →
      Except CliError (Option Reply × SendMsgBufs)) :
    (∀ payload bufs v reply bufs1,
      connect payload bufs = .ok ((v, reply), bufs1) →
      reply.bytes = [protocol_VERSION] ∧ (v = true ↔ payload.getD 0 0 = protocol_VERSION))
  ∧ (∀ s fd payload control buf_index more r,
      s.clients.is_connected fd = false → s.clients.is_closing fd = false →
      payload.isEmpty = false → payload.getD 0 0 ≠ protocol_VERSION →
      handle_completion hr s (.recv fd (.ok payload control false) buf_index more) = .ok r →
      (∃ reply bufs1, connect payload s.send_bufs = .ok ((false, reply), bufs1) ∧
        r.2.1 = [Sqe.sendmsg fd reply.token buf_index true, Sqe.close fd]) ∧
      r.1.clients.is_connected fd = false) := by
  constructor
  · intro payload bufs v reply bufs1 h
    unfold connect at h
    cases halloc : bufs.alloc [protocol_VERSION] with
    | none =>
      rw [halloc] at h
      exact absurd h (by simp)
    | some p =>
      obtain ⟨reply0, bufs0⟩ := p
      rw [halloc] at h
      dsimp only at h
      simp only [Except.ok.injEq, Prod.mk.injEq] at h
      obtain ⟨⟨hv, hr1⟩, hb⟩ := h
      constructor
      · rw [← hr1]
        exact alloc_some_bytes bufs _ _ halloc
      · rw [← hv]
        simp
  · intro s fd payload control buf_index more r hconn hclos hne hver h
    simp only [handle_completion] at h
    rw [if_neg (by simp)] at h
    rw [if_neg (by simp [hne])] at h
    rw [if_neg (by simp [hclos])] at h
    rw [if_neg (by simp [hconn])] at h
    cases h2 : connect payload s.send_bufs with
    | error e =>
      rw [h2] at h
      exact absurd h (by simp)
    | ok vrb =>
      obtain ⟨⟨valid, reply0⟩, bufs0⟩ := vrb
      have hvalid : valid = false := by
        unfold connect at h2
        cases halloc : s.send_bufs.alloc [protocol_VERSION] with
        | none =>
          rw [halloc] at h2
          exact absurd h2 (by simp)
        | some p =>
          obtain ⟨reply1, bufs1⟩ := p
          rw [halloc] at h2
          dsimp only at h2
          simp only [Except.ok.injEq, Prod.mk.injEq] at h2
          rw [← h2.1.1]
          simpa using hver
      subst hvalid
      rw [h2] at h
      simp only [Bool.false_eq_true, if_false] at h
      have hnc : (s.clients.set_disconnected fd).is_connected fd = false :=
        set_disconnected_not_connected s.clients fd hconn
      rw [hnc] at h
      simp only [Bool.not_false, Bool.false_eq_true, if_false, List.singleton_append] at h
      obtain rfl := (Except.ok.injEq .. ▸ h :)
      exact ⟨⟨reply0, bufs0, rfl, rfl⟩, hnc⟩

/-- C1: the committed Add handler in requests.rs is a stub: for every Add
request it returns no reply at all, and neither a store write nor a ring
append exists in the function, contradicting the spec contract of reading
the fd, storing the contents, appending a ring slot and replying with the
new composite id. The repository intends the full behaviour: reactor.rs
calls a five-argument `handle` taking the allocator, which this function
does not even match. -/
theorem c1_add_handler_stub :
    ∀ (fds : List (List Nat)) (bufs : SendMsgBufs),
      handle Request.add fds bufs = .ok (none, bufs) :=
  fun _ _ => rfl

/-- C10 witness: a concrete table with disjoint bits, closed at id 0. -/
theorem c10_client_bitsets_witness :
    (0 : Nat) < 32 ∧ Clients.excl ⟨1, 2, 4⟩ ∧
    (Clients.set_closed ⟨1, 2, 4⟩ 0).excl ∧
    (Clients.set_closed ⟨1, 2, 4⟩ 0).is_connected 0 = false :=
  ⟨by decide, rfl,
   (c10_client_bitsets ⟨1, 2, 4⟩ 0 (by decide) rfl).2.2.1,
   (c10_client_bitsets ⟨1, 2, 4⟩ 0 (by decide) rfl).2.2.2.2.1⟩

/-- C5 witness: NFILE on the initial state defers the accept, and id 40 is
not connected in the (reachable) initial state. -/
theorem c5_accept_discipline_witness :
    handle_completion (fun _ _ b => .ok (none, b)) init_reactor (.accept .err_nfile true) =
      .ok ({ init_reactor with pending_accept := true }, [], false) ∧
    init_reactor.clients.is_connected 40 = false :=
  ⟨(c5_accept_discipline _).2.2.1 init_reactor true,
   (c5_accept_discipline (fun _ _ b => .ok (none, b))).1 init_reactor Reachable.init 40
     (by norm_num)⟩

/-- C6 witness: NOBUFS for client 3 marks it pending, and a trace holding
only a close completion for client 1 pushes no recvmsg for client 3. -/
theorem c6_recv_backpressure_witness :
    handle_completion (fun _ _ b => .ok (none, b)) init_reactor (.recv 3 .err_nobufs 0 true) =
      .ok ({ init_reactor with clients := init_reactor.clients.set_pending_recv 3 }, [], false) ∧
    Sqe.recvmsg 3 ∉ (reactor_loop (fun _ _ b => .ok (none, b)) 96 init_reactor []
      [Completion.close 1 true]).2 :=
  ⟨((c6_recv_backpressure _ 3).1 init_reactor 0 true).1,
   (c6_recv_backpressure (fun _ _ b => .ok (none, b)) 3).2.2.2 96 init_reactor [] [Completion.close 1 true]
     (by
       intro c hc
       simp only [List.mem_singleton] at hc
       subst hc
       exact ⟨not_false, not_false, not_false⟩)⟩

/-- C9 witness: with one free slot the loop does not dequeue, and a
close-completion trace from the initial state never hits the push error. -/
theorem c9_submission_discipline_witness :
    reactor_loop (fun _ _ b => .ok (none, b)) 3 init_reactor [Sqe.accept, Sqe.accept]
        [Completion.close 1 true] = (.ok (init_reactor, [Sqe.accept, Sqe.accept]), []) ∧
    (reactor_loop (fun _ _ b => .ok (none, b)) 96 init_reactor []
      [Completion.close 1 true]).1 ≠ .error (.internal pushErrorContext) :=
  ⟨(c9_submission_discipline (fun _ _ b => .ok (none, b)) (by intro p ctl b; simp)).2.1 3 init_reactor
      [Sqe.accept, Sqe.accept] (Completion.close 1 true) [] (by norm_num),
   (c9_submission_discipline (fun _ _ b => .ok (none, b)) (by intro p ctl b; simp)).2.2 96 init_reactor []
      [Completion.close 1 true] (by simp)⟩

/-- C7 witness: a handshake with version byte 255 against server version 1
pushes the one-byte reply linked to a close and leaves client 0 not
connected. -/
theorem c7_connect_handshake_witness :
    init_reactor.clients.is_connected 0 = false ∧
    handle_completion (fun _ _ b => .ok (none, b)) init_reactor
        (.recv 0 (.ok [255] [] false) 5 true) =
      .ok (⟨⟨0, 1, 0⟩, false, List.replicate 32 false, ⟨(List.range 256).tail⟩⟩,
        [Sqe.sendmsg 0 0 5 true, Sqe.close 0], false) ∧
    (⟨⟨0, 1, 0⟩, false, List.replicate 32 false,
      ⟨(List.range 256).tail⟩⟩ : Reactor).clients.is_connected 0 = false :=
  ⟨rfl, rfl,
   ((c7_connect_handshake (fun _ _ b => .ok (none, b))).2 init_reactor 0 [255] [] 5 true
     (⟨⟨0, 1, 0⟩, false, List.replicate 32 false, ⟨(List.range 256).tail⟩⟩,
       [Sqe.sendmsg 0 0 5 true, Sqe.close 0], false)
     rfl rfl rfl (by decide) rfl).2⟩

end Ringboard
